import Mathlib

/-!
Shallow embedding of the streaming Protocol-Buffer timeseries encoder
(the proto `Encoder` of the repository) together with proofs about the
claims of its specification.

The encoder driver, the per-field custom coders, the residual proto path
and the lifecycle operations are translated from the Go source
(`Encoder.Encode`, `Encoder.encodeBytesValue`, `Encoder.addToBytesDict`,
`Encoder.encodeProtoValues`, `Encoder.SetSchema`, `Encoder.Close`, ...).

External collaborators (the bit-stream writer `OStream`, the m3tsz
timestamp sub-coder, the protobuf reflection library, xxhash) are not part
of the given source tree; where their behaviour decides a claim they are
modelled from the specification and marked `Modelled from the spec:`.
External library calls whose internals are out of scope (unmarshal, marshal,
hashing, the float/int sub-coders, the timestamp sub-coder) are supplied as
an explicit environment `Env` of oracle functions, so the embedding stays
executable on concrete instantiations.

The output stream is modelled at bit granularity as a `List Bool`; every
write of the Go `OStream` appends bits at the current position.
-/

namespace M3Proto

/-- Bits of the output stream, in write order. -/
abbrev BitList := List Bool

/-- `OStream.WriteBit`: append a single bit. -/
def writeBit (s : BitList) (b : Bool) : BitList := s ++ [b]

/-- The MSB-first window of the low `n` bits of `v`; this is the bit order
of `OStream.WriteBits`. -/
def natBitsMSB (v n : Nat) : BitList :=
  (List.range n).map (fun i => Nat.testBit v (n - 1 - i))

/-- `OStream.WriteBits`: append the low `n` bits of `v`, MSB-first. -/
def writeBits (s : BitList) (v n : Nat) : BitList := s ++ natBitsMSB v n

/-- The eight bits of one byte, MSB-first. -/
def byteBits (b : Nat) : BitList := natBitsMSB b 8

/-- Bits of a byte sequence, each byte MSB-first. -/
def bytesBits (bs : List Nat) : BitList := (bs.map byteBits).flatten

/-- Modelled from the spec: `OStream.WriteBytes` appends the bytes at the
current bit position (the underlying writer splits each byte across the
byte boundary when the position is not aligned). -/
def writeBytesL (s : BitList) (bs : List Nat) : BitList := s ++ bytesBits bs

/-- `binary.PutUvarint` (unsigned LEB128): seven payload bits per byte,
high bit set on every byte except the last.  Structural recursion on a
fuel bound (`x` itself bounds the recursion depth, since `x / 128 ≤ x - 1`
whenever `x ≥ 128`), so the definition evaluates by kernel reduction. -/
def uvarintAux : Nat → Nat → List Nat
  | 0, x => [x % 128]
  | fuel + 1, x => if x < 128 then [x] else (x % 128 + 128) :: uvarintAux fuel (x / 128)

def uvarintBytes (x : Nat) : List Nat := uvarintAux x x

/-- Number of 0-bits `padToNextByte` appends at bit position `n`. -/
def padLengthAt (n : Nat) : Nat := (8 - n % 8) % 8

/-- `Encoder.padToNextByte`: write 0-bits until the stream position is a
multiple of eight. -/
def padToNextByte (s : BitList) : BitList :=
  s ++ List.replicate (padLengthAt s.length) false

/-- Length in bytes of the raw buffer backing the stream (the in-progress
byte is part of the buffer). -/
def streamByteLen (s : BitList) : Nat := (s.length + 7) / 8

/-- The byte at absolute byte offset `i` of the stream buffer (bits past
the end of the stream read as 0). -/
def streamByteAt (s : BitList) (i : Nat) : Nat :=
  (List.range 8).foldl (fun acc j => 2 * acc + (if s.getD (8 * i + j) false then 1 else 0)) 0

/-- Read `len` bytes of the stream buffer starting at byte offset `start`. -/
def readStreamBytes (s : BitList) (start len : Nat) : List Nat :=
  (List.range len).map (fun k => streamByteAt s (start + k))

/-- One entry of a bytes field's LRU dictionary (`encoderBytesFieldDictState`):
xxhash of the literal, absolute byte offset of the literal in the stream,
and its length. -/
structure encoderBytesFieldDictState where
  hash : Nat
  startPos : Nat
  length : Nat
  deriving Repr, DecidableEq

/-- `Encoder.bytesMatchEncodedDictionaryValue`: compare the byte range an
LRU entry references against `currBytes`; error when the range lies outside
the stream buffer (a should-never-happen invariant in the source). -/
def bytesMatchEncodedDictionaryValue
    (streamBits : BitList) (dictState : encoderBytesFieldDictState)
    (currBytes : List Nat) : Except String Bool :=
  if dictState.startPos + dictState.length > streamByteLen streamBits then
    Except.error "bytes position in LRU is outside of stream bounds"
  else
    Except.ok (readStreamBytes streamBits dictState.startPos dictState.length = currBytes)

/-- `Encoder.moveToEndOfBytesDict`: bubble the entry at index `i` to the
tail by repeated adjacent swaps (indices at or past the end leave the list
unchanged, as the loop body does). -/
def moveToEndOfBytesDict : List encoderBytesFieldDictState → Nat → List encoderBytesFieldDictState
  | [], _ => []
  | [a], _ => [a]
  | a :: b :: rest, 0 => b :: moveToEndOfBytesDict (a :: rest) 0
  | a :: rest, n + 1 => a :: moveToEndOfBytesDict rest n

/-- `Encoder.addToBytesDict`: append below capacity, otherwise shift every
entry down one slot and overwrite the last slot.  The overwrite targets
index `len(existing)-1`; with an empty dictionary that access is out of
bounds in the source (a Go slice-bounds panic), modelled here as `none`. -/
def addToBytesDict (lruSize : Nat) (existing : List encoderBytesFieldDictState)
    (state : encoderBytesFieldDictState) : Option (List encoderBytesFieldDictState) :=
  if existing.length < lruSize then
    some (existing ++ [state])
  else
    match existing with
    | [] => none
    | _ :: rest => some (rest ++ [state])

/-- Modelled from the spec: `numBitsRequiredForNumUpToN` is not part of the
given sources; the spec fixes the LRU-index width as `⌈log₂ capacity⌉` bits. -/
def numBitsRequiredForNumUpToN (n : Nat) : Nat := Nat.clog 2 n

/-- The dynamic value a protobuf message holds at one field, abstracted to
the shapes the encoder dispatches on: floats carry their IEEE-754 bit
pattern, byte and string fields are byte lists, residual-proto values are
opaque tags compared by equality. -/
inductive FieldValue where
  | vFloat (pattern : Nat)
  | vInt (v : Int)
  | vUInt (v : Nat)
  | vBytes (bs : List Nat)
  | vBool (b : Bool)
  | vOther (tag : Nat)
  deriving Repr, DecidableEq

/-- An unmarshaled dynamic message: an association list from field number
to value.  A missing field number models an unset field. -/
abbrev Msg := List (Nat × FieldValue)

/-- `GetFieldByNumber` / `TryGetFieldByNumber` on a dynamic message,
abstracted to an association-list lookup (an unset field reads as `none`). -/
def lookupField (m : Msg) (fieldNum : Nat) : Option FieldValue :=
  (m.find? (fun p => p.1 = fieldNum)).map Prod.snd

/-- `TryClearFieldByNumber`: drop the field from the message. -/
def clearField (m : Msg) (fieldNum : Nat) : Msg :=
  m.filter (fun p => p.1 ≠ fieldNum)

/-- `TrySetFieldByNumber`: overwrite the field (setting an unset value
clears the slot). -/
def setField (m : Msg) (fieldNum : Nat) (v : Option FieldValue) : Msg :=
  match v with
  | none => clearField m fieldNum
  | some w => clearField m fieldNum ++ [(fieldNum, w)]

/-- The kind a message descriptor reports for one field; kinds outside the
custom set fall to the residual proto path. -/
inductive FieldKind where
  | kDouble | kFloat | kSInt | kUInt | kBytes | kBool | kOther
  deriving Repr, DecidableEq

/-- A message descriptor: field numbers with their kinds, in descriptor
order. -/
abbrev Schema := List (Nat × FieldKind)

/-- A schema descriptor: deploy identifier plus message descriptor. -/
structure SchemaDescr where
  deployId : String
  schema : Schema
  deriving Repr, DecidableEq

/-- Modelled from the spec: the custom-type identifiers written by the
schema block are not part of the given sources; per the spec, 0 marks a
field that is not custom-encoded and the groups are collapsed into single
identifiers. -/
def notCustomEncodedField : Nat := 0

def float64Field : Nat := 1

def float32Field : Nat := 2

def signedIntField : Nat := 3

def unsignedIntField : Nat := 4

def bytesField : Nat := 5

def boolField : Nat := 6

/-- Three bits identify a custom type in version 1 of the encoding scheme
(stated in the source comment of `encodeCustomSchemaTypes`). -/
def numBitsToEncodeCustomType : Nat := 3

def isCustomFloatEncodedField (t : Nat) : Bool := t = float64Field || t = float32Field

def isCustomIntEncodedField (t : Nat) : Bool := t = signedIntField || t = unsignedIntField

def isUnsignedInt (t : Nat) : Bool := t = unsignedIntField

/-- Per-field state of a custom coder (`customFieldState`): field number,
custom type, the opaque state of the float/int sub-coder, and the bytes
LRU dictionary. -/
structure customFieldState where
  fieldNum : Nat
  fieldType : Nat
  coderState : Nat
  bytesFieldDict : List encoderBytesFieldDictState
  deriving Repr, DecidableEq

/-- Modelled from the spec: `customAndProtoFields` is not part of the given
sources.  Per the spec's schema analyser, fields whose kind maps to a custom
coder become `customFields` sorted ascending by field number; the remaining
field numbers become `protoFields` in descriptor order. -/
def fieldKindCustomType : FieldKind → Nat
  | .kDouble => float64Field
  | .kFloat => float32Field
  | .kSInt => signedIntField
  | .kUInt => unsignedIntField
  | .kBytes => bytesField
  | .kBool => boolField
  | .kOther => notCustomEncodedField

def insertByFieldNum (c : customFieldState) : List customFieldState → List customFieldState
  | [] => [c]
  | d :: ds => if c.fieldNum ≤ d.fieldNum then c :: d :: ds else d :: insertByFieldNum c ds

def sortByFieldNum (l : List customFieldState) : List customFieldState :=
  l.foldr insertByFieldNum []

def customAndProtoFields (s : Schema) : List customFieldState × List Nat :=
  let custom := s.filterMap (fun p =>
    let t := fieldKindCustomType p.2
    if t = notCustomEncodedField then none
    else some { fieldNum := p.1, fieldType := t, coderState := 0, bytesFieldDict := [] })
  let protoNums := (s.filter (fun p => fieldKindCustomType p.2 = notCustomEncodedField)).map Prod.fst
  (sortByFieldNum custom, protoNums)

/-- Encoder options (`encoding.Options`), restricted to what the encoder
consults. -/
structure Options where
  byteFieldDictionaryLRUSize : Nat
  defaultTimeUnit : Nat
  hasEncoderPool : Bool
  deriving Repr, DecidableEq

/-- The external collaborators, supplied as oracles: xxhash, the m3tsz
timestamp sub-coder (`WriteTime` may fail; `WriteTimeUnit` emits bits and
updates the current unit), the float and int sub-coders (bit emission plus
opaque per-field state), and the protobuf library (unmarshal reporting
unknown fields, marshal which may fail, and the proto3 default-value test
which may fail). -/
structure Env where
  hash : List Nat → Nat
  writeTime : Nat → Nat → Nat → Except String (BitList × Nat)
  writeTimeUnitBits : Nat → BitList
  writeFloat : Nat → Nat → BitList × Nat
  writeSignedInt : Nat → Int → BitList × Nat
  writeUnsignedInt : Nat → Nat → BitList × Nat
  unmarshal : List Nat → Except String (Msg × Bool)
  marshal : Msg → Except String (List Nat)
  isDefault : Nat → Option FieldValue → Except String Bool

/-- The timestamp of a sample together with its (always-zeroed) value. -/
structure Datapoint where
  timestamp : Nat
  value : Nat
  deriving Repr, DecidableEq

/-- Encoder state (`Encoder`), with the timestamp sub-coder's state split
into its observable current time unit and an opaque remainder.  The
`unmarshaled`/`marshalBuf` scratch slots are not modelled: the former is
replaced by the unmarshal oracle, the latter only avoids allocation. -/
structure EncoderState where
  stream : BitList
  schemaDesc : Option SchemaDescr
  schema : Option Schema
  numEncoded : Nat
  lastEncodedDP : Datapoint
  lastEncoded : Option Msg
  customFields : List customFieldState
  protoFields : List Nat
  hardErr : Option String
  hasEncodedSchema : Bool
  closed : Bool
  uncompressedBytes : Nat
  tsTimeUnit : Nat
  tsRest : Nat
  deriving Repr, DecidableEq

/-- `NewEncoder`. -/
def NewEncoder (opts : Options) : EncoderState :=
  { stream := []
    schemaDesc := none
    schema := none
    numEncoded := 0
    lastEncodedDP := { timestamp := 0, value := 0 }
    lastEncoded := none
    customFields := []
    protoFields := []
    hardErr := none
    hasEncodedSchema := false
    closed := false
    uncompressedBytes := 0
    tsTimeUnit := opts.defaultTimeUnit
    tsRest := 0 }

def errEncoderSchemaIsRequired : String := "proto encoder: schema is required"

def errEncoderMessageHasUnknownFields : String := "proto encoder: message has unknown fields"

def errEncoderClosed : String := "proto encoder: encoder is closed"

def errNoEncodedDatapoints : String := "proto encoder: encoder has no encoded datapoints"

/-- The wrapped error every operation returns while `hardErr` is set. -/
def hardErrMsg (cause : String) : String :=
  "proto encoder: err encoder unusable due to hard err: " ++ cause

/-- `Encoder.isUsable`. -/
def isUsable (enc : EncoderState) : Option String :=
  if enc.closed then some errEncoderClosed
  else
    match enc.hardErr with
    | some cause => some (hardErrMsg cause)
    | none => none

/-- Modelled from the spec: the `opCode` bit constants are not part of the
given sources; the spec's bit-stream format fixes their values (continue
marker 0, break marker 1 1, no-change 0, changed 1, LRU-index path 0,
new-literal path 1, bool true 1, bitset member 1). -/
def opCodeNoMoreDataOrTimeUnitChangeAndOrSchemaChange : Bool := true

def opCodeTimeUnitChangeAndOrSchemaChange : Bool := true

def opCodeTimeUnitChange : Bool := true

def opCodeTimeUnitUnchanged : Bool := false

def opCodeSchemaChange : Bool := true

def opCodeSchemaUnchanged : Bool := false

def opCodeMoreData : Bool := false

def opCodeNoChange : Bool := false

def opCodeChange : Bool := true

def opCodeInterpretSubsequentBitsAsLRUIndex : Bool := false

def opCodeInterpretSubsequentBitsAsBytesLengthVarInt : Bool := true

def opCodeBoolTrue : Bool := true

def opCodeBoolFalse : Bool := false

def opCodeFieldsSetToDefaultProtoMarshal : Bool := true

def opCodeNoFieldsSetToDefaultProtoMarshal : Bool := false

def opCodeBitsetValueIsSet : Bool := true

def opCodeBitsetValueIsNotSet : Bool := false

/-- `Encoder.encodeTSZValue`: a float field accepts float values only and
defers bit emission to the per-field TSZ sub-coder. -/
def encodeTSZValue (env : Env) (f : customFieldState) (bits : BitList)
    (iVal : FieldValue) : customFieldState × BitList × Option String :=
  match iVal with
  | .vFloat pattern =>
    let (w, st2) := env.writeFloat f.coderState pattern
    ({ f with coderState := st2 }, bits ++ w, none)
  | _ => (f, bits, some "found unknown type in fieldNum")

/-- `Encoder.encodeIntValue`: unsigned values fill the unsigned slot and
signed values the signed slot (a mismatched slot stays zero, as in the
source); dispatch between the two sub-coders follows the field type. -/
def encodeIntValue (env : Env) (f : customFieldState) (bits : BitList)
    (iVal : FieldValue) : customFieldState × BitList × Option String :=
  match iVal with
  | .vUInt u =>
    if isUnsignedInt f.fieldType then
      let (w, st2) := env.writeUnsignedInt f.coderState u
      ({ f with coderState := st2 }, bits ++ w, none)
    else
      let (w, st2) := env.writeSignedInt f.coderState 0
      ({ f with coderState := st2 }, bits ++ w, none)
  | .vInt v =>
    if isUnsignedInt f.fieldType then
      let (w, st2) := env.writeUnsignedInt f.coderState 0
      ({ f with coderState := st2 }, bits ++ w, none)
    else
      let (w, st2) := env.writeSignedInt f.coderState v
      ({ f with coderState := st2 }, bits ++ w, none)
  | _ => (f, bits, some "found unknown type in fieldNum")

/-- `Encoder.encodeBoolValue`. -/
def encodeBoolValue (f : customFieldState) (bits : BitList)
    (iVal : FieldValue) : customFieldState × BitList × Option String :=
  match iVal with
  | .vBool b => (f, writeBit bits (if b then opCodeBoolTrue else opCodeBoolFalse), none)
  | _ => (f, bits, some "found unknown type in fieldNum")

/-- The tail check of `Encoder.encodeBytesValue`: when the dictionary is
non-empty and the tail entry's hash equals the current hash, compare the
referenced byte range against the current bytes. -/
def bytesTailCheck (bits : BitList) (dict : List encoderBytesFieldDictState)
    (hash : Nat) (currBytes : List Nat) : Except String Bool :=
  match dict.getLast? with
  | some lastState =>
    if hash = lastState.hash then bytesMatchEncodedDictionaryValue bits lastState currBytes
    else Except.ok false
  | none => Except.ok false

/-- The head-to-tail scan loop of `Encoder.encodeBytesValue`: the first
index whose entry has a matching hash and matching referenced bytes (a
hash match with differing bytes is skipped; a range-check failure aborts). -/
def findDictMatch (bits : BitList) (hash : Nat) (currBytes : List Nat) :
    List encoderBytesFieldDictState → Nat → Except String (Option Nat)
  | [], _ => Except.ok none
  | d :: ds, j =>
    if hash = d.hash then
      match bytesMatchEncodedDictionaryValue bits d currBytes with
      | Except.error e => Except.error e
      | Except.ok true => Except.ok (some j)
      | Except.ok false => findDictMatch bits hash currBytes ds (j + 1)
    else findDictMatch bits hash currBytes ds (j + 1)

/-- `Encoder.encodeBytesValue` for field `f` (string values arrive as their
bytes): tail no-change path, LRU-index path, or new-literal path with
varint length, padding to the next byte boundary, the literal bytes, and a
new dictionary entry.  An out-of-bounds overwrite in `addToBytesDict`
(possible only with LRU capacity 0) is modelled as an error. -/
def encodeBytesValue (opts : Options) (env : Env) (f : customFieldState)
    (bits : BitList) (iVal : FieldValue) : customFieldState × BitList × Option String :=
  match iVal with
  | .vBytes currBytes =>
    let hash := env.hash currBytes
    let dict := f.bytesFieldDict
    match bytesTailCheck bits dict hash currBytes with
    | Except.error e => (f, bits, some e)
    | Except.ok true => (f, writeBit bits opCodeNoChange, none)
    | Except.ok false =>
      let bits1 := writeBit bits opCodeChange
      match findDictMatch bits1 hash currBytes dict 0 with
      | Except.error e => (f, bits1, some e)
      | Except.ok (some j) =>
        let bits2 := writeBits (writeBit bits1 opCodeInterpretSubsequentBitsAsLRUIndex)
          j (numBitsRequiredForNumUpToN opts.byteFieldDictionaryLRUSize)
        ({ f with bytesFieldDict := moveToEndOfBytesDict dict j }, bits2, none)
      | Except.ok none =>
        let length := currBytes.length
        let bits2 := writeBit bits1 opCodeInterpretSubsequentBitsAsBytesLengthVarInt
        let bits3 := writeBytesL bits2 (uvarintBytes length)
        let bits4 := padToNextByte bits3
        let bytePos := streamByteLen bits4
        let bits5 := writeBytesL bits4 currBytes
        match addToBytesDict opts.byteFieldDictionaryLRUSize dict
          { hash := hash, startPos := bytePos, length := length } with
        | some newDict => ({ f with bytesFieldDict := newDict }, bits5, none)
        | none => (f, bits5, some "index out of range")
  | _ => (f, bits, some "found unknown type in fieldNum")

/-- The per-field dispatch of `Encoder.encodeCustomValues`. -/
def encodeOneCustomValue (opts : Options) (env : Env) (m : Msg)
    (f : customFieldState) (bits : BitList) : customFieldState × BitList × Option String :=
  match lookupField m f.fieldNum with
  | none => (f, bits, some "error trying to get field number")
  | some iVal =>
    if isCustomFloatEncodedField f.fieldType then encodeTSZValue env f bits iVal
    else if isCustomIntEncodedField f.fieldType then encodeIntValue env f bits iVal
    else if f.fieldType = bytesField then encodeBytesValue opts env f bits iVal
    else if f.fieldType = boolField then encodeBoolValue f bits iVal
    else (f, bits, some "error no logic for custom encoding field number")

/-- The loop of `Encoder.encodeCustomValues`: fields are processed in
order; a failure stops the loop, keeping the bits written so far. -/
def encodeCustomValuesLoop (opts : Options) (env : Env) (m : Msg) :
    List customFieldState → BitList → List customFieldState × BitList × Option String
  | [], bits => ([], bits, none)
  | f :: fs, bits =>
    match encodeOneCustomValue opts env m f bits with
    | (f2, bits2, some e) => (f2 :: fs, bits2, some e)
    | (f2, bits2, none) =>
      match encodeCustomValuesLoop opts env m fs bits2 with
      | (fs2, bits3, r) => (f2 :: fs2, bits3, r)

/-- `Encoder.encodeCustomValues`. -/
def encodeCustomValues (opts : Options) (env : Env) (enc : EncoderState)
    (m : Msg) : EncoderState × Option String :=
  match encodeCustomValuesLoop opts env m enc.customFields enc.stream with
  | (fs, bits, r) => ({ enc with customFields := fs, stream := bits }, r)

/-- The bits `Encoder.encodeBitset` appends: varint of the maximum value,
then one bit per position `i ∈ [0, max)` set exactly when `i+1` is among
the (1-indexed) values. -/
def bitsetMax (values : List Nat) : Nat :=
  values.foldl (fun acc v => if v > acc then v else acc) 0

def encodeBitsetBits (values : List Nat) : BitList :=
  bytesBits (uvarintBytes (bitsetMax values)) ++
    (List.range (bitsetMax values)).map
      (fun i => if values.contains (i + 1) then opCodeBitsetValueIsSet else opCodeBitsetValueIsNotSet)

/-- The field-diff loop of `Encoder.encodeProtoValues`: per residual field,
an unchanged value is cleared from the input message; a changed value is
recorded (also in `fieldsChangedToDefault` when it equals the proto3
default) and written into `lastEncoded`.  Equality of dynamic field values
(`fieldsEqual`) is abstracted to equality of the optional abstract values.
A failing default-value test aborts, keeping the updates made so far. -/
def protoDiffLoop (env : Env) :
    List Nat → Msg → Msg → List Nat → List Nat →
      Msg × Msg × List Nat × List Nat × Option String
  | [], m, lastEnc, changed, changedToDefault => (m, lastEnc, changed, changedToDefault, none)
  | fieldNum :: rest, m, lastEnc, changed, changedToDefault =>
    let prevVal := lookupField lastEnc fieldNum
    let curVal := lookupField m fieldNum
    if curVal = prevVal then
      protoDiffLoop env rest (clearField m fieldNum) lastEnc changed changedToDefault
    else
      match env.isDefault fieldNum curVal with
      | Except.error e => (m, lastEnc, changed, changedToDefault, some e)
      | Except.ok isDef =>
        let changedToDefault2 := if isDef then changedToDefault ++ [fieldNum] else changedToDefault
        protoDiffLoop env rest m (setField lastEnc fieldNum curVal)
          (changed ++ [fieldNum]) changedToDefault2

/-- `Encoder.encodeProtoValues`: fast no-residual-fields path, no-change
path, or the changed path that marshals the pruned message and then emits
the change bit, the default-values bit (with bitset), the varint length and
the marshaled bytes — all appended at the current bit position. -/
def encodeProtoValues (env : Env) (enc : EncoderState) (m : Msg) :
    EncoderState × Option String :=
  if enc.protoFields = [] then
    ({ enc with stream := writeBit enc.stream opCodeNoChange }, none)
  else
    let lastEnc0 := enc.lastEncoded.getD []
    match protoDiffLoop env enc.protoFields m lastEnc0 [] [] with
    | (_, lastEnc1, _, _, some e) => ({ enc with lastEncoded := some lastEnc1 }, some e)
    | (m1, lastEnc1, changedFields, changedToDefault, none) =>
      let enc1 := { enc with lastEncoded := some lastEnc1 }
      if changedFields = [] then
        ({ enc1 with stream := writeBit enc1.stream opCodeNoChange }, none)
      else
        match env.marshal m1 with
        | Except.error e => (enc1, some e)
        | Except.ok marshaled =>
          let s1 := writeBit enc1.stream opCodeChange
          let s2 :=
            if changedToDefault.length > 0 then
              writeBit s1 opCodeFieldsSetToDefaultProtoMarshal ++ encodeBitsetBits changedToDefault
            else writeBit s1 opCodeNoFieldsSetToDefaultProtoMarshal
          let s3 := writeBytesL s2 (uvarintBytes marshaled.length)
          let s4 := writeBytesL s3 marshaled
          ({ enc1 with stream := s4 }, none)

/-- `Encoder.encodeProto`. -/
def encodeProto (opts : Options) (env : Env) (enc : EncoderState) (m : Msg) :
    EncoderState × Option String :=
  match encodeCustomValues opts env enc m with
  | (enc1, some e) => (enc1, some e)
  | (enc1, none) => encodeProtoValues env enc1 m

/-- The bits `Encoder.encodeCustomSchemaTypes` appends: varint 0 with no
custom fields, else varint of the maximum custom field number followed by
one `numBitsToEncodeCustomType`-bit group per field number `1..max` (the
first matching custom field supplies the type, otherwise not-custom). -/
def customSchemaTypesBits (customFields : List customFieldState) : BitList :=
  match customFields.getLast? with
  | none => bytesBits (uvarintBytes 0)
  | some lastF =>
    let maxFieldNum := lastF.fieldNum
    bytesBits (uvarintBytes maxFieldNum) ++
      ((List.range maxFieldNum).map
        (fun i =>
          let t := ((customFields.find? (fun cf => cf.fieldNum = i + 1)).map
            customFieldState.fieldType).getD notCustomEncodedField
          natBitsMSB t numBitsToEncodeCustomType)).flatten

/-- The version-1 encoding scheme constant. -/
def currentEncodingSchemeVersion : Nat := 1

/-- The bits `Encoder.encodeStreamHeader` appends: varint of the scheme
version followed by varint of the configured LRU size. -/
def streamHeaderBits (opts : Options) : BitList :=
  bytesBits (uvarintBytes currentEncodingSchemeVersion) ++
    bytesBits (uvarintBytes opts.byteFieldDictionaryLRUSize)

/-- The header-and-control-bit portion of the hard section of
`Encoder.Encode`: the stream header on the first sample, the control bits,
the out-of-band time-unit block and the custom-schema block. -/
def encodeSampleControl (opts : Options) (env : Env) (enc : EncoderState)
    (timeUnit : Nat) : EncoderState :=
  let enc1 :=
    if enc.numEncoded = 0 then { enc with stream := enc.stream ++ streamHeaderBits opts }
    else enc
  let needToEncodeSchema := !enc1.hasEncodedSchema
  let needToEncodeTimeUnit := timeUnit != enc1.tsTimeUnit
  if needToEncodeSchema || needToEncodeTimeUnit then
    let s1 := enc1.stream ++
      [opCodeNoMoreDataOrTimeUnitChangeAndOrSchemaChange,
       opCodeTimeUnitChangeAndOrSchemaChange,
       (if needToEncodeTimeUnit then opCodeTimeUnitChange else opCodeTimeUnitUnchanged),
       (if needToEncodeSchema then opCodeSchemaChange else opCodeSchemaUnchanged)]
    let encA :=
      if needToEncodeTimeUnit then
        { enc1 with stream := s1 ++ env.writeTimeUnitBits timeUnit, tsTimeUnit := timeUnit }
      else { enc1 with stream := s1 }
    if needToEncodeSchema then
      { encA with stream := encA.stream ++ customSchemaTypesBits encA.customFields,
                  hasEncodedSchema := true }
    else encA
  else { enc1 with stream := writeBit enc1.stream opCodeMoreData }

/-- The post-soft-check portion of `Encoder.Encode` ("from this point
onwards all errors are hard errors"): the control section, then the
timestamp, the custom values and the residual proto values, finishing with
the counters.  `pbLen` is the length of the annotation byte slice, consumed
by the statistics. -/
def encodeSample (opts : Options) (env : Env) (enc : EncoderState) (dp : Datapoint)
    (timeUnit : Nat) (pbLen : Nat) (m : Msg) : EncoderState × Option String :=
  let enc2 := encodeSampleControl opts env enc timeUnit
  match env.writeTime enc2.tsRest dp.timestamp timeUnit with
  | Except.error e =>
    ({ enc2 with hardErr := some e },
     some ("proto encoder: error encoding timestamp: " ++ e))
  | Except.ok (tsBits, tsRest2) =>
    let enc3 := { enc2 with stream := enc2.stream ++ tsBits, tsRest := tsRest2 }
    match encodeProto opts env enc3 m with
    | (enc4, some e) =>
      ({ enc4 with hardErr := some e },
       some ("proto encoder: error encoding proto portion of message: " ++ e))
    | (enc4, none) =>
      ({ enc4 with
          numEncoded := enc4.numEncoded + 1,
          lastEncodedDP := dp,
          uncompressedBytes := enc4.uncompressedBytes + pbLen }, none)

/-- `Encoder.Encode`: usability and schema checks, the unmarshal and
unknown-fields soft checks (each returning with the state untouched), then
the hard section `encodeSample` on the message, with the datapoint value
forced to zero.  The second component is the returned error. -/
def Encode (opts : Options) (env : Env) (enc : EncoderState) (dp : Datapoint)
    (timeUnit : Nat) (protoBytes : List Nat) : EncoderState × Option String :=
  match isUsable enc with
  | some e => (enc, some e)
  | none =>
    match enc.schema with
    | none => (enc, some errEncoderSchemaIsRequired)
    | some _ =>
      match env.unmarshal protoBytes with
      | Except.error e =>
        (enc, some ("proto encoder: error unmarshaling annotation into proto message: " ++ e))
      | Except.ok (m, hasUnknownFields) =>
        if hasUnknownFields then (enc, some errEncoderMessageHasUnknownFields)
        else encodeSample opts env enc { dp with value := 0 } timeUnit protoBytes.length m

/-- `Encoder.resetSchema`. -/
def resetSchema (enc : EncoderState) (schema : Option Schema) : EncoderState :=
  match schema with
  | none =>
    { enc with schema := none, protoFields := [], customFields := [],
               lastEncoded := none, hasEncodedSchema := false }
  | some s =>
    let cp := customAndProtoFields s
    { enc with schema := some s, customFields := cp.1, protoFields := cp.2,
               lastEncoded := some [], hasEncodedSchema := false }

/-- `Encoder.SetSchema`. -/
def SetSchema (enc : EncoderState) (descr : Option SchemaDescr) : EncoderState :=
  match descr with
  | none => resetSchema { enc with schemaDesc := none } none
  | some d =>
    match enc.schemaDesc with
    | some d0 =>
      if d.deployId.length ≠ 0 ∧ d0.deployId = d.deployId then enc
      else resetSchema { enc with schemaDesc := some d } (some d.schema)
    | none => resetSchema { enc with schemaDesc := some d } (some d.schema)

/-- `Encoder.reset` (the private helper): fresh stream buffer, fresh
timestamp sub-coder, cleared last-message state, re-derived field
classification, and cleared `closed`/`numEncoded`.  As in the source,
`hardErr` and the uncompressed-byte counter are not touched here. -/
def resetInternal (opts : Options) (enc : EncoderState) : EncoderState :=
  let encA :=
    { enc with stream := [],
               tsTimeUnit := opts.defaultTimeUnit,
               tsRest := 0,
               lastEncoded := none,
               lastEncodedDP := { timestamp := 0, value := 0 } }
  let encB :=
    match encA.schema with
    | some s =>
      let cp := customAndProtoFields s
      { encA with customFields := cp.1, protoFields := cp.2 }
    | none => encA
  { encB with closed := false, numEncoded := 0 }

/-- `Encoder.Reset` (start time and capacity only shape the fresh buffer
and sub-coder, which the model folds into the cleared state). -/
def Reset (opts : Options) (enc : EncoderState) (descr : Option SchemaDescr) : EncoderState :=
  resetInternal opts (SetSchema enc descr)

/-- `Encoder.Close`: a no-op when already closed, else reset, drop the
buffer, mark closed and hand the encoder to its pool.  The boolean reports
the externally observable pool hand-off. -/
def Close (opts : Options) (enc : EncoderState) : EncoderState × Bool :=
  if enc.closed then (enc, false)
  else
    let enc1 := Reset opts enc none
    ({ enc1 with stream := [], closed := true }, opts.hasEncoderPool)

/-- The raw bytes of the stream buffer (`Rawbytes`). -/
def currentBytes (enc : EncoderState) : List Nat :=
  readStreamBytes enc.stream 0 (streamByteLen enc.stream)

/-- `Encoder.discard` / `segment(copy=false)`: yield the buffer and leave
the stream empty. -/
def discardInternal (enc : EncoderState) : List Nat × EncoderState :=
  (currentBytes enc, { enc with stream := [] })

/-- `Encoder.Discard`. -/
def Discard (opts : Options) (enc : EncoderState) : List Nat × EncoderState × Bool :=
  let sg := discardInternal enc
  let c := Close opts sg.2
  (sg.1, c.1, c.2)

/-- `Encoder.DiscardReset`. -/
def DiscardReset (opts : Options) (enc : EncoderState) (descr : Option SchemaDescr) :
    List Nat × EncoderState :=
  let sg := discardInternal enc
  (sg.1, Reset opts sg.2 descr)

/-- `Encoder.NumEncoded`. -/
def NumEncoded (enc : EncoderState) : Nat := enc.numEncoded

/-- `Encoder.LastEncoded`. -/
def LastEncoded (enc : EncoderState) : Except String Datapoint :=
  match isUsable enc with
  | some e => Except.error e
  | none =>
    if enc.numEncoded = 0 then Except.error errNoEncodedDatapoints
    else Except.ok { enc.lastEncodedDP with value := 0 }

/-- `Encoder.Len`.  Modelled from the spec: the stream writer reports its
length in bits. -/
def Len (enc : EncoderState) : Nat := enc.stream.length

/-- `Encoder.Stats`: the source copies `enc.Len()` into the compressed
counter unchanged. -/
structure EncoderStats where
  uncompressedBytes : Nat
  compressedBytes : Nat
  deriving Repr, DecidableEq

def Stats (enc : EncoderState) : EncoderStats :=
  { uncompressedBytes := enc.uncompressedBytes, compressedBytes := Len enc }

/-- `Encoder.Bytes`. -/
def Bytes (enc : EncoderState) : Except String (List Nat) :=
  match isUsable enc with
  | some e => Except.error e
  | none => Except.ok (currentBytes enc)

/-- One step of an encoder's lifetime: the states an encoder can be in
after a sequence of public operations starting from construction.  The
oracle environment may differ between calls. -/
inductive Reachable (opts : Options) : EncoderState → Prop where
  | init : Reachable opts (NewEncoder opts)
  | encodeStep (env : Env) (enc : EncoderState) (dp : Datapoint) (tu : Nat) (pb : List Nat) :
      Reachable opts enc → Reachable opts (Encode opts env enc dp tu pb).1
  | setSchemaStep (enc : EncoderState) (d : Option SchemaDescr) :
      Reachable opts enc → Reachable opts (SetSchema enc d)
  | resetStep (enc : EncoderState) (d : Option SchemaDescr) :
      Reachable opts enc → Reachable opts (Reset opts enc d)
  | closeStep (enc : EncoderState) :
      Reachable opts enc → Reachable opts (Close opts enc).1
  | discardStep (enc : EncoderState) :
      Reachable opts enc → Reachable opts (Discard opts enc).2.1
  | discardResetStep (enc : EncoderState) (d : Option SchemaDescr) :
      Reachable opts enc → Reachable opts (DiscardReset opts enc d).2

/-- A run of `Encode` calls, threading the state. -/
def encodeRun (opts : Options) (env : Env) :
    EncoderState → List (Datapoint × Nat × List Nat) → EncoderState
  | enc, [] => enc
  | enc, (dp, tu, pb) :: rest => encodeRun opts env (Encode opts env enc dp tu pb).1 rest

/-- Total length of the annotation byte slices of the calls in the run
that are accepted (return no error). -/
def acceptedBytes (opts : Options) (env : Env) :
    EncoderState → List (Datapoint × Nat × List Nat) → Nat
  | _, [] => 0
  | enc, (dp, tu, pb) :: rest =>
    (if (Encode opts env enc dp tu pb).2 = none then pb.length else 0) +
      acceptedBytes opts env (Encode opts env enc dp tu pb).1 rest

/-! ### Helper lemmas -/

lemma isUsable_eq_none {enc : EncoderState} (hcl : enc.closed = false)
    (hhe : enc.hardErr = none) : isUsable enc = none := by
  simp [isUsable, hcl, hhe]

lemma encodeCustomValues_eq (opts : Options) (env : Env) (enc : EncoderState) (m : Msg) :
    encodeCustomValues opts env enc m =
      ({ enc with customFields := (encodeCustomValuesLoop opts env m enc.customFields enc.stream).1,
                  stream := (encodeCustomValuesLoop opts env m enc.customFields enc.stream).2.1 },
       (encodeCustomValuesLoop opts env m enc.customFields enc.stream).2.2) := by
  unfold encodeCustomValues
  rcases h : encodeCustomValuesLoop opts env m enc.customFields enc.stream with ⟨fs, bits, r⟩
  simp

/-- The residual proto path only rewrites the stream and `lastEncoded`. -/
lemma encodeProtoValues_preserves (env : Env) (enc : EncoderState) (m : Msg) :
    (encodeProtoValues env enc m).1.closed = enc.closed ∧
    (encodeProtoValues env enc m).1.hardErr = enc.hardErr ∧
    (encodeProtoValues env enc m).1.numEncoded = enc.numEncoded ∧
    (encodeProtoValues env enc m).1.uncompressedBytes = enc.uncompressedBytes := by
  simp only [encodeProtoValues]
  split
  · simp
  · split
    · simp
    · split
      · simp
      · split <;> simp

/-- The whole per-sample value-encoding pass only rewrites the stream, the
custom-field coder states and `lastEncoded`. -/
lemma encodeProto_preserves (opts : Options) (env : Env) (enc : EncoderState) (m : Msg) :
    (encodeProto opts env enc m).1.closed = enc.closed ∧
    (encodeProto opts env enc m).1.hardErr = enc.hardErr ∧
    (encodeProto opts env enc m).1.numEncoded = enc.numEncoded ∧
    (encodeProto opts env enc m).1.uncompressedBytes = enc.uncompressedBytes := by
  unfold encodeProto
  rw [encodeCustomValues_eq]
  rcases h : (encodeCustomValuesLoop opts env m enc.customFields enc.stream).2.2 with _ | e
  · simpa using encodeProtoValues_preserves env
      { enc with customFields := (encodeCustomValuesLoop opts env m enc.customFields enc.stream).1,
                 stream := (encodeCustomValuesLoop opts env m enc.customFields enc.stream).2.1 } m
  · simp

/-- The control section only rewrites the stream, the time unit and the
schema flag. -/
lemma encodeSampleControl_preserves (opts : Options) (env : Env) (enc : EncoderState)
    (tu : Nat) :
    (encodeSampleControl opts env enc tu).closed = enc.closed ∧
    (encodeSampleControl opts env enc tu).hardErr = enc.hardErr ∧
    (encodeSampleControl opts env enc tu).numEncoded = enc.numEncoded ∧
    (encodeSampleControl opts env enc tu).uncompressedBytes = enc.uncompressedBytes := by
  simp only [encodeSampleControl]
  split <;> split <;> (try split) <;> (try split) <;> simp_all

/-- The hard section either appends a sample (no error, counters moved) or
sets `hardErr`; `closed` is never touched. -/
lemma encodeSample_outcome (opts : Options) (env : Env) (enc : EncoderState)
    (dp : Datapoint) (tu : Nat) (pbLen : Nat) (m : Msg) :
    (encodeSample opts env enc dp tu pbLen m).1.closed = enc.closed ∧
    (((encodeSample opts env enc dp tu pbLen m).2 = none ∧
      (encodeSample opts env enc dp tu pbLen m).1.hardErr = enc.hardErr ∧
      (encodeSample opts env enc dp tu pbLen m).1.numEncoded = enc.numEncoded + 1 ∧
      (encodeSample opts env enc dp tu pbLen m).1.uncompressedBytes =
        enc.uncompressedBytes + pbLen) ∨
     ((encodeSample opts env enc dp tu pbLen m).2 ≠ none ∧
      (encodeSample opts env enc dp tu pbLen m).1.hardErr ≠ none ∧
      (encodeSample opts env enc dp tu pbLen m).1.numEncoded = enc.numEncoded ∧
      (encodeSample opts env enc dp tu pbLen m).1.uncompressedBytes =
        enc.uncompressedBytes)) := by
  have hc := encodeSampleControl_preserves opts env enc tu
  simp only [encodeSample]
  generalize hgen : encodeSampleControl opts env enc tu = enc2 at hc
  obtain ⟨hc1, hc2, hc3, hc4⟩ := hc
  split
  case h_1 e heq =>
    exact ⟨by simp [hc1], Or.inr ⟨by simp, by simp, by simp [hc3], by simp [hc4]⟩⟩
  case h_2 x tsBits tsRest2 heq =>
    split
    case h_1 enc4 e heq2 =>
      have h4 := encodeProto_preserves opts env
        { enc2 with stream := enc2.stream ++ tsBits, tsRest := tsRest2 } m
      rw [heq2] at h4
      simp only at h4
      exact ⟨by simp [h4.1, hc1],
        Or.inr ⟨by simp, by simp, by simp [h4.2.2.1, hc3], by simp [h4.2.2.2, hc4]⟩⟩
    case h_2 enc4 heq2 =>
      have h4 := encodeProto_preserves opts env
        { enc2 with stream := enc2.stream ++ tsBits, tsRest := tsRest2 } m
      rw [heq2] at h4
      simp only at h4
      exact ⟨by simp [h4.1, hc1],
        Or.inl ⟨by simp, by simp [h4.2.1, hc2], by simp [h4.2.2.1, hc3], by simp [h4.2.2.2, hc4]⟩⟩

/-- Every `Encode` call either leaves the state untouched (a soft error),
appends a sample, or hard-fails; `closed` is never touched. -/
lemma encode_outcome (opts : Options) (env : Env) (enc : EncoderState)
    (dp : Datapoint) (tu : Nat) (pb : List Nat) :
    (Encode opts env enc dp tu pb).1.closed = enc.closed ∧
    (((Encode opts env enc dp tu pb).2 ≠ none ∧ (Encode opts env enc dp tu pb).1 = enc) ∨
     ((Encode opts env enc dp tu pb).2 = none ∧
      (Encode opts env enc dp tu pb).1.hardErr = enc.hardErr ∧
      (Encode opts env enc dp tu pb).1.numEncoded = enc.numEncoded + 1 ∧
      (Encode opts env enc dp tu pb).1.uncompressedBytes =
        enc.uncompressedBytes + pb.length) ∨
     ((Encode opts env enc dp tu pb).2 ≠ none ∧
      (Encode opts env enc dp tu pb).1.hardErr ≠ none ∧
      (Encode opts env enc dp tu pb).1.numEncoded = enc.numEncoded ∧
      (Encode opts env enc dp tu pb).1.uncompressedBytes = enc.uncompressedBytes)) := by
  simp only [Encode]
  split
  · simp
  · split
    · simp
    · split
      · simp
      · split
        · simp
        · rename_i m hUnk heq hnotUnk
          have h := encodeSample_outcome opts env enc { dp with value := 0 } tu pb.length m
          exact ⟨h.1, by
            rcases h.2 with hok | hbad
            · exact Or.inr (Or.inl hok)
            · exact Or.inr (Or.inr hbad)⟩

/-- A soft-path reduction of `Encode`: once the usability, schema and
unmarshal checks pass, the call is the hard section on the unmarshaled
message. -/
lemma encode_reduces {opts : Options} {env : Env} {enc : EncoderState} {dp : Datapoint}
    {tu : Nat} {pb : List Nat} {sch : Schema} {m : Msg}
    (hcl : enc.closed = false) (hhe : enc.hardErr = none) (hs : enc.schema = some sch)
    (hun : env.unmarshal pb = Except.ok (m, false)) :
    Encode opts env enc dp tu pb =
      encodeSample opts env enc { dp with value := 0 } tu pb.length m := by
  simp [Encode, isUsable_eq_none hcl hhe, hs, hun]

/-- An encoder whose `hardErr` is set rejects `Encode` with the wrapped
cause and an unchanged state. -/
lemma encode_on_hard_failed (opts : Options) (env : Env) (st : EncoderState)
    (c : String) (dp : Datapoint) (tu : Nat) (pb : List Nat)
    (hcl : st.closed = false) (hh : st.hardErr = some c) :
    Encode opts env st dp tu pb = (st, some (hardErrMsg c)) := by
  simp [Encode, isUsable, hcl, hh]

/-- `SetSchema` only rewrites the schema-derived state. -/
lemma setSchema_preserves (enc : EncoderState) (d : Option SchemaDescr) :
    (SetSchema enc d).stream = enc.stream ∧
    (SetSchema enc d).numEncoded = enc.numEncoded ∧
    (SetSchema enc d).hardErr = enc.hardErr ∧
    (SetSchema enc d).closed = enc.closed := by
  cases d with
  | none => simp [SetSchema, resetSchema]
  | some d =>
    cases h0 : enc.schemaDesc with
    | none => simp [SetSchema, h0, resetSchema]
    | some d0 =>
      by_cases hc : d.deployId.length ≠ 0 ∧ d0.deployId = d.deployId <;>
        simp [SetSchema, h0, hc, resetSchema]

/-- `Reset` empties the stream and the sample counter and reopens the
encoder. -/
lemma reset_fields (opts : Options) (enc : EncoderState) (d : Option SchemaDescr) :
    (Reset opts enc d).stream = [] ∧
    (Reset opts enc d).numEncoded = 0 ∧
    (Reset opts enc d).closed = false := by
  simp only [Reset, resetInternal]
  split <;> simp

/-- `Close` always leaves the closed flag set. -/
lemma close_closed (opts : Options) (enc : EncoderState) :
    (Close opts enc).1.closed = true := by
  by_cases h : enc.closed <;> simp [Close, h]

/-! ### Append-only stream lemmas: every write appends at the tail -/

lemma encodeTSZValue_append (env : Env) (f : customFieldState) (bits : BitList)
    (iVal : FieldValue) : ∃ t, (encodeTSZValue env f bits iVal).2.1 = bits ++ t := by
  cases iVal <;> simp [encodeTSZValue]

lemma encodeIntValue_append (env : Env) (f : customFieldState) (bits : BitList)
    (iVal : FieldValue) : ∃ t, (encodeIntValue env f bits iVal).2.1 = bits ++ t := by
  cases iVal <;> simp [encodeIntValue] <;> split <;> simp

lemma encodeBoolValue_append (f : customFieldState) (bits : BitList)
    (iVal : FieldValue) : ∃ t, (encodeBoolValue f bits iVal).2.1 = bits ++ t := by
  cases iVal <;> simp [encodeBoolValue, writeBit]

lemma encodeBytesValue_append (opts : Options) (env : Env) (f : customFieldState)
    (bits : BitList) (iVal : FieldValue) :
    ∃ t, (encodeBytesValue opts env f bits iVal).2.1 = bits ++ t := by
  cases iVal with
  | vBytes currBytes =>
    simp only [encodeBytesValue]
    split
    · exact ⟨[], by simp⟩
    · simp only [writeBit, List.append_assoc]
      exact ⟨_, rfl⟩
    · split
      · simp only [writeBit, List.append_assoc]
        exact ⟨_, rfl⟩
      · simp only [writeBit, writeBits, List.append_assoc]
        exact ⟨_, rfl⟩
      · split <;>
          · simp only [writeBit, writeBits, writeBytesL, padToNextByte,
              List.append_assoc]
            exact ⟨_, rfl⟩
  | vFloat p => exact ⟨[], by simp [encodeBytesValue]⟩
  | vInt v => exact ⟨[], by simp [encodeBytesValue]⟩
  | vUInt v => exact ⟨[], by simp [encodeBytesValue]⟩
  | vBool b => exact ⟨[], by simp [encodeBytesValue]⟩
  | vOther t => exact ⟨[], by simp [encodeBytesValue]⟩

lemma encodeOneCustomValue_append (opts : Options) (env : Env) (m : Msg)
    (f : customFieldState) (bits : BitList) :
    ∃ t, (encodeOneCustomValue opts env m f bits).2.1 = bits ++ t := by
  simp only [encodeOneCustomValue]
  split
  · exact ⟨[], by simp⟩
  · split
    · exact encodeTSZValue_append env f bits _
    · split
      · exact encodeIntValue_append env f bits _
      · split
        · exact encodeBytesValue_append opts env f bits _
        · split
          · exact encodeBoolValue_append f bits _
          · exact ⟨[], by simp⟩

lemma encodeCustomValuesLoop_append (opts : Options) (env : Env) (m : Msg)
    (fs : List customFieldState) (bits : BitList) :
    ∃ t, (encodeCustomValuesLoop opts env m fs bits).2.1 = bits ++ t := by
  induction fs generalizing bits with
  | nil => exact ⟨[], by simp [encodeCustomValuesLoop]⟩
  | cons f fs ih =>
    simp only [encodeCustomValuesLoop]
    obtain ⟨t1, h1⟩ := encodeOneCustomValue_append opts env m f bits
    split
    case h_1 f2 bits2 e heq =>
      refine ⟨t1, ?_⟩
      have : bits2 = bits ++ t1 := by rw [← h1, heq]
      simp [this]
    case h_2 f2 bits2 heq =>
      have hb2 : bits2 = bits ++ t1 := by rw [← h1, heq]
      obtain ⟨t2, h2⟩ := ih bits2
      rw [hb2] at h2
      exact ⟨t1 ++ t2, by simp [hb2, h2, List.append_assoc]⟩

lemma encodeProtoValues_append (env : Env) (enc : EncoderState) (m : Msg) :
    ∃ t, (encodeProtoValues env enc m).1.stream = enc.stream ++ t := by
  simp only [encodeProtoValues]
  split
  · simp only [writeBit]
    exact ⟨_, rfl⟩
  · split
    · exact ⟨[], by simp⟩
    · split
      · simp only [writeBit]
        exact ⟨_, rfl⟩
      · split
        · exact ⟨[], by simp⟩
        · split <;>
            · simp only [writeBit, writeBytesL, List.append_assoc]
              exact ⟨_, rfl⟩

lemma encodeProto_append (opts : Options) (env : Env) (enc : EncoderState) (m : Msg) :
    ∃ t, (encodeProto opts env enc m).1.stream = enc.stream ++ t := by
  unfold encodeProto
  rw [encodeCustomValues_eq]
  obtain ⟨t1, h1⟩ := encodeCustomValuesLoop_append opts env m enc.customFields enc.stream
  rcases h : (encodeCustomValuesLoop opts env m enc.customFields enc.stream).2.2 with _ | e
  · simp only [h]
    obtain ⟨t2, h2⟩ := encodeProtoValues_append env
      { enc with customFields := (encodeCustomValuesLoop opts env m enc.customFields enc.stream).1,
                 stream := (encodeCustomValuesLoop opts env m enc.customFields enc.stream).2.1 } m
    exact ⟨t1 ++ t2, by simpa [h1, List.append_assoc] using h2⟩
  · exact ⟨t1, by simp [h, h1]⟩

/-- The bits the control section appends: the stream header on the first
sample, then either the single continue bit or the four break bits followed
by the optional time-unit and schema blocks. -/
lemma encodeSampleControl_stream (opts : Options) (env : Env) (enc : EncoderState)
    (tu : Nat) :
    (encodeSampleControl opts env enc tu).stream =
      enc.stream ++ (if enc.numEncoded = 0 then streamHeaderBits opts else []) ++
      (if (!enc.hasEncodedSchema || (tu != enc.tsTimeUnit)) then
        [true, true, (tu != enc.tsTimeUnit), !enc.hasEncodedSchema] ++
        ((if (tu != enc.tsTimeUnit) then env.writeTimeUnitBits tu else []) ++
         (if (!enc.hasEncodedSchema) then customSchemaTypesBits enc.customFields else []))
      else [false]) := by
  simp only [encodeSampleControl,
    opCodeNoMoreDataOrTimeUnitChangeAndOrSchemaChange,
    opCodeTimeUnitChangeAndOrSchemaChange, opCodeTimeUnitChange,
    opCodeTimeUnitUnchanged, opCodeSchemaChange, opCodeSchemaUnchanged,
    opCodeMoreData, writeBit]
  by_cases h0 : enc.numEncoded = 0 <;>
    by_cases hsc : enc.hasEncodedSchema <;>
      by_cases htu : (tu != enc.tsTimeUnit) = true <;>
        simp [h0, hsc, htu, List.append_assoc]

/-! ### Concrete fixtures used by witnesses and counterexamples -/

/-- A small concrete option set: LRU capacity 2, default time unit 3, an
encoder pool configured. -/
def testOpts : Options :=
  { byteFieldDictionaryLRUSize := 2, defaultTimeUnit := 3, hasEncoderPool := true }

/-- A concrete oracle environment whose calls all succeed. -/
def testEnv : Env :=
  { hash := fun bs => bs.foldl (fun a b => a * 257 + b + 1) 7
    writeTime := fun _ _ _ => Except.ok ([true], 1)
    writeTimeUnitBits := fun _ => [false, true]
    writeFloat := fun s _ => ([true, false], s)
    writeSignedInt := fun s _ => ([false], s)
    writeUnsignedInt := fun s _ => ([false], s)
    unmarshal := fun _ => Except.ok ([(1, FieldValue.vBool true)], false)
    marshal := fun m => Except.ok (m.map (fun p => p.1 % 256))
    isDefault := fun _ v => Except.ok (v = some (FieldValue.vOther 0)) }

/-- A schema with a single custom (bool) field. -/
def testSchema : Schema := [(1, FieldKind.kBool)]

def testDescr : SchemaDescr := { deployId := "d1", schema := testSchema }

/-- A second schema descriptor with a different deploy id, one custom and
one residual field. -/
def testDescr2 : SchemaDescr :=
  { deployId := "d9", schema := [(4, FieldKind.kUInt), (2, FieldKind.kOther)] }

/-- A freshly constructed encoder with the bool schema installed. -/
def testState0 : EncoderState := SetSchema (NewEncoder testOpts) (some testDescr)

/-- The environment whose timestamp sub-coder fails on every call. -/
def failTsEnv : Env := { testEnv with writeTime := fun _ _ _ => Except.error "ts fail" }

/-- The environment whose unmarshal fails on every call. -/
def badUnmarshalEnv : Env := { testEnv with unmarshal := fun _ => Except.error "bad bytes" }

/-- The environment whose unmarshal reports unknown fields. -/
def unknownFieldsEnv : Env :=
  { testEnv with unmarshal := fun _ => Except.ok ([(1, FieldValue.vBool true)], true) }

/-! ### The claims -/

/-- C10: `addToBytesDict` performs no out-of-bounds access when the
configured LRU size is at least 1 — below capacity it appends, and at
capacity the dictionary is non-empty, so the eviction overwrite of the
last slot is in bounds; with a configured size of 0 the first new literal
(empty dictionary at "capacity") would access index `len-1 = -1`. -/
theorem c10_add_to_bytes_dict_bounds :
    (∀ (lruSize : Nat) (dict : List encoderBytesFieldDictState)
        (e : encoderBytesFieldDictState), 1 ≤ lruSize →
        (addToBytesDict lruSize dict e).isSome = true) ∧
    (∀ e : encoderBytesFieldDictState, addToBytesDict 0 [] e = none) := by
  constructor
  · intro lruSize dict e h
    by_cases hlt : dict.length < lruSize
    · simp [addToBytesDict, hlt]
    · cases dict with
      | nil => simp at hlt; omega
      | cons a rest =>
        simp only [addToBytesDict]
        split <;> simp
  · intro e
    rfl

theorem c10_witness :
    1 ≤ 1 ∧ (addToBytesDict 1 []
      { hash := 0, startPos := 0, length := 0 }).isSome = true :=
  ⟨by decide, c10_add_to_bytes_dict_bounds.1 1 []
    { hash := 0, startPos := 0, length := 0 } (by decide)⟩

/-- C9: `Close` is idempotent — a second `Close` returns the same state
and produces no pool hand-off — the closed flag is set afterwards, and a
first `Close` hands the encoder to its pool exactly when one is
configured. -/
theorem c9_close_idempotent (opts : Options) (enc : EncoderState) :
    (Close opts (Close opts enc).1).1 = (Close opts enc).1 ∧
    (Close opts (Close opts enc).1).2 = false ∧
    (Close opts enc).1.closed = true ∧
    (enc.closed = false → (Close opts enc).2 = opts.hasEncoderPool) := by
  by_cases h : enc.closed <;> simp [Close, h]

theorem c9_witness :
    (NewEncoder testOpts).closed = false ∧
    (Close testOpts (Close testOpts (NewEncoder testOpts)).1).1 =
      (Close testOpts (NewEncoder testOpts)).1 ∧
    (Close testOpts (NewEncoder testOpts)).1.closed = true ∧
    (Close testOpts (NewEncoder testOpts)).2 = testOpts.hasEncoderPool :=
  ⟨rfl, (c9_close_idempotent testOpts (NewEncoder testOpts)).1,
    (c9_close_idempotent testOpts (NewEncoder testOpts)).2.2.1,
    (c9_close_idempotent testOpts (NewEncoder testOpts)).2.2.2 rfl⟩

/-- C1: when `Encode` fails because the annotation does not unmarshal into
the configured schema, or because the unmarshaled message carries unknown
fields, the call returns an error and leaves the encoder state completely
unchanged — no bits are written and `numEncoded`, the statistics and
`lastEncodedDP` keep their values — so the encoder remains usable. -/
theorem c1_soft_error_leaves_encoder_unchanged
    (opts : Options) (env : Env) (enc : EncoderState) (dp : Datapoint) (tu : Nat)
    (pb : List Nat) (sch : Schema)
    (hcl : enc.closed = false) (hhe : enc.hardErr = none) (hs : enc.schema = some sch)
    (hsoft : (∃ e, env.unmarshal pb = Except.error e) ∨
             (∃ m, env.unmarshal pb = Except.ok (m, true))) :
    (Encode opts env enc dp tu pb).1 = enc ∧
    (Encode opts env enc dp tu pb).2 ≠ none ∧
    isUsable (Encode opts env enc dp tu pb).1 = none := by
  have hu : isUsable enc = none := isUsable_eq_none hcl hhe
  rcases hsoft with ⟨e, he⟩ | ⟨m, hm⟩
  · simp [Encode, hu, hs, he]
  · simp [Encode, hu, hs, hm]

theorem c1_witness :
    testState0.closed = false ∧ testState0.hardErr = none ∧
    testState0.schema = some testSchema ∧
    badUnmarshalEnv.unmarshal [1] = Except.error "bad bytes" ∧
    (Encode testOpts badUnmarshalEnv testState0
      { timestamp := 5, value := 0 } 3 [1]).1 = testState0 ∧
    (Encode testOpts badUnmarshalEnv testState0
      { timestamp := 5, value := 0 } 3 [1]).2 ≠ none :=
  ⟨rfl, rfl, rfl, rfl,
    (c1_soft_error_leaves_encoder_unchanged testOpts badUnmarshalEnv testState0
      { timestamp := 5, value := 0 } 3 [1] testSchema rfl rfl rfl
      (Or.inl ⟨"bad bytes", rfl⟩)).1,
    (c1_soft_error_leaves_encoder_unchanged testOpts badUnmarshalEnv testState0
      { timestamp := 5, value := 0 } 3 [1] testSchema rfl rfl rfl
      (Or.inl ⟨"bad bytes", rfl⟩)).2.1⟩

/-- C2: when an `Encode` call that has passed the soft checks fails — the
timestamp sub-coder's `WriteTime` failing or the custom/residual proto
encoding failing are the only possibilities — `hardErr` is set, and from
that state every subsequent `Encode` (under any oracle), `LastEncoded` and
`Bytes` call returns the error wrapping that cause with the state
untouched, while `Close`, `Reset`, `Discard` and `DiscardReset` still
perform their jobs. -/
theorem c2_hard_error_sticky_and_blocking
    (opts : Options) (env : Env) (enc : EncoderState) (dp : Datapoint) (tu : Nat)
    (pb : List Nat) (sch : Schema) (m : Msg)
    (hcl : enc.closed = false) (hhe : enc.hardErr = none) (hs : enc.schema = some sch)
    (hun : env.unmarshal pb = Except.ok (m, false)) :
    ((Encode opts env enc dp tu pb).2 ≠ none →
      (Encode opts env enc dp tu pb).1.hardErr ≠ none) ∧
    (∀ c, (Encode opts env enc dp tu pb).1.hardErr = some c →
      (∀ (env2 : Env) (dp2 : Datapoint) (tu2 : Nat) (pb2 : List Nat),
        Encode opts env2 (Encode opts env enc dp tu pb).1 dp2 tu2 pb2 =
          ((Encode opts env enc dp tu pb).1, some (hardErrMsg c))) ∧
      LastEncoded (Encode opts env enc dp tu pb).1 = Except.error (hardErrMsg c) ∧
      Bytes (Encode opts env enc dp tu pb).1 = Except.error (hardErrMsg c) ∧
      (Close opts (Encode opts env enc dp tu pb).1).1.closed = true ∧
      (Reset opts (Encode opts env enc dp tu pb).1 none).numEncoded = 0 ∧
      (Reset opts (Encode opts env enc dp tu pb).1 none).stream = [] ∧
      (Discard opts (Encode opts env enc dp tu pb).1).1 =
        currentBytes (Encode opts env enc dp tu pb).1 ∧
      (DiscardReset opts (Encode opts env enc dp tu pb).1 none).1 =
        currentBytes (Encode opts env enc dp tu pb).1) := by
  have hred := @encode_reduces opts env enc dp tu pb sch m hcl hhe hs hun
  have hout := encodeSample_outcome opts env enc { dp with value := 0 } tu pb.length m
  constructor
  · intro hne
    rw [hred] at hne ⊢
    rcases hout.2 with hok | hbad
    · exact absurd hok.1 hne
    · exact hbad.2.1
  · intro c hc
    have hcl2 : (Encode opts env enc dp tu pb).1.closed = false := by
      rw [hred, hout.1, hcl]
    refine ⟨?_, ?_, ?_, close_closed _ _,
      (reset_fields _ _ _).2.1, (reset_fields _ _ _).1, rfl, rfl⟩
    · intro env2 dp2 tu2 pb2
      exact encode_on_hard_failed opts env2 _ c dp2 tu2 pb2 hcl2 hc
    · simp [LastEncoded, isUsable, hcl2, hc]
    · simp [Bytes, isUsable, hcl2, hc]

theorem c2_witness :
    testState0.closed = false ∧ testState0.hardErr = none ∧
    testState0.schema = some testSchema ∧
    failTsEnv.unmarshal [1] = Except.ok ([(1, FieldValue.vBool true)], false) ∧
    (Encode testOpts failTsEnv testState0 { timestamp := 5, value := 0 } 3 [1]).1.hardErr =
      some "ts fail" ∧
    Encode testOpts testEnv
        (Encode testOpts failTsEnv testState0 { timestamp := 5, value := 0 } 3 [1]).1
        { timestamp := 6, value := 0 } 3 [2] =
      ((Encode testOpts failTsEnv testState0 { timestamp := 5, value := 0 } 3 [1]).1,
        some (hardErrMsg "ts fail")) ∧
    LastEncoded (Encode testOpts failTsEnv testState0
        { timestamp := 5, value := 0 } 3 [1]).1 =
      Except.error (hardErrMsg "ts fail") :=
  ⟨rfl, rfl, rfl, rfl, by decide,
    ((c2_hard_error_sticky_and_blocking testOpts failTsEnv testState0
        { timestamp := 5, value := 0 } 3 [1] testSchema
        [(1, FieldValue.vBool true)] rfl rfl rfl rfl).2 "ts fail" (by decide)).1
      testEnv { timestamp := 6, value := 0 } 3 [2],
    ((c2_hard_error_sticky_and_blocking testOpts failTsEnv testState0
        { timestamp := 5, value := 0 } 3 [1] testSchema
        [(1, FieldValue.vBool true)] rfl rfl rfl rfl).2 "ts fail" (by decide)).2.1⟩

/-- C8: `SetSchema` with a non-nil descriptor is a no-op exactly when a
schema descriptor is already installed and the new deploy id is non-empty
and equal to the current one; otherwise the fields are re-classified into
`customFields` and `protoFields` and `hasEncodedSchema` becomes false (so
the schema-change control path fires on the next `Encode`). -/
theorem c8_set_schema_semantics (enc : EncoderState) (d : SchemaDescr) :
    (∀ d0, enc.schemaDesc = some d0 → d.deployId.length ≠ 0 → d0.deployId = d.deployId →
      SetSchema enc (some d) = enc) ∧
    ((∀ d0, enc.schemaDesc = some d0 → d.deployId.length = 0 ∨ d0.deployId ≠ d.deployId) →
      (SetSchema enc (some d)).customFields = (customAndProtoFields d.schema).1 ∧
      (SetSchema enc (some d)).protoFields = (customAndProtoFields d.schema).2 ∧
      (SetSchema enc (some d)).hasEncodedSchema = false ∧
      (SetSchema enc (some d)).schemaDesc = some d ∧
      (SetSchema enc (some d)).schema = some d.schema) := by
  constructor
  · intro d0 h0 hne hdeq
    simp [SetSchema, h0, hne, hdeq]
  · intro hcond
    cases h0 : enc.schemaDesc with
    | none => simp [SetSchema, h0, resetSchema]
    | some d0 =>
      have hnc : ¬(d.deployId.length ≠ 0 ∧ d0.deployId = d.deployId) := by
        rcases hcond d0 h0 with hz | hne
        · intro hcontra
          exact hcontra.1 hz
        · intro hcontra
          exact hne hcontra.2
      simp [SetSchema, h0, hnc, resetSchema]

theorem c8_witness :
    testState0.schemaDesc = some testDescr ∧
    testDescr.deployId ≠ testDescr2.deployId ∧
    (SetSchema testState0 (some testDescr2)).customFields =
      (customAndProtoFields testDescr2.schema).1 ∧
    (SetSchema testState0 (some testDescr2)).protoFields =
      (customAndProtoFields testDescr2.schema).2 ∧
    (SetSchema testState0 (some testDescr2)).hasEncodedSchema = false ∧
    (SetSchema testState0 (some testDescr2)).schemaDesc = some testDescr2 :=
  ⟨rfl, by decide,
    ((c8_set_schema_semantics testState0 testDescr2).2
      (fun d0 h0 => Or.inr (by
        have : d0 = testDescr := by
          have h0r : testState0.schemaDesc = some testDescr := rfl
          rw [h0r] at h0
          exact (Option.some_inj.mp h0).symm
        rw [this]
        decide))).1,
    ((c8_set_schema_semantics testState0 testDescr2).2
      (fun d0 h0 => Or.inr (by
        have : d0 = testDescr := by
          have h0r : testState0.schemaDesc = some testDescr := rfl
          rw [h0r] at h0
          exact (Option.some_inj.mp h0).symm
        rw [this]
        decide))).2.1,
    ((c8_set_schema_semantics testState0 testDescr2).2
      (fun d0 h0 => Or.inr (by
        have : d0 = testDescr := by
          have h0r : testState0.schemaDesc = some testDescr := rfl
          rw [h0r] at h0
          exact (Option.some_inj.mp h0).symm
        rw [this]
        decide))).2.2.1,
    ((c8_set_schema_semantics testState0 testDescr2).2
      (fun d0 h0 => Or.inr (by
        have : d0 = testDescr := by
          have h0r : testState0.schemaDesc = some testDescr := rfl
          rw [h0r] at h0
          exact (Option.some_inj.mp h0).symm
        rw [this]
        decide))).2.2.2.1⟩

lemma close_state_cases (opts : Options) (enc : EncoderState) :
    (Close opts enc).1 = enc ∨ (Close opts enc).1.stream = [] := by
  by_cases h : enc.closed <;> simp [Close, h]

lemma discard_stream_empty (opts : Options) (enc : EncoderState) :
    (Discard opts enc).2.1.stream = [] := by
  by_cases h : enc.closed <;> simp [Discard, discardInternal, Close, h]

/-- C4 counterexample: from a freshly constructed encoder with a schema
installed, a first `Encode` call whose timestamp sub-coder fails returns an
error after the header and control bits were already written: `numEncoded`
is still 0 yet the output buffer is not empty, refuting the claim for
error-returning first `Encode` calls (the claim holds only for soft
errors). -/
theorem c4_counterexample :
    (Encode testOpts failTsEnv testState0 { timestamp := 5, value := 0 } 3 [1]).2 ≠ none ∧
    (Encode testOpts failTsEnv testState0
      { timestamp := 5, value := 0 } 3 [1]).1.numEncoded = 0 ∧
    (Encode testOpts failTsEnv testState0
      { timestamp := 5, value := 0 } 3 [1]).1.stream ≠ [] := by
  refine ⟨?_, ?_, ?_⟩ <;> decide

/-- C4 (amended): at every reachable point in an encoder's lifetime, if
`numEncoded = 0` **and no hard error has been recorded**, the output
buffer is empty; in particular this holds after any soft-error `Encode`
call on the first sample.  (After a *hard*-error first `Encode` the buffer
retains the partially written sample, which is the counterexample to the
claim as stated.) -/
theorem c4_empty_stream_invariant (opts : Options) (enc : EncoderState)
    (hr : Reachable opts enc) (hn : enc.numEncoded = 0) (hh : enc.hardErr = none) :
    enc.stream = [] := by
  revert hn hh
  induction hr with
  | init =>
    intro hn hh
    rfl
  | encodeStep env enc dp tu pb hr ih =>
    intro hn hh
    have h := encode_outcome opts env enc dp tu pb
    rcases h.2 with hsoft | hok | hbad
    · rw [hsoft.2] at hn hh ⊢
      exact ih hn hh
    · rw [hok.2.2.1] at hn
      omega
    · exact absurd hh hbad.2.1
  | setSchemaStep enc d hr ih =>
    intro hn hh
    have h := setSchema_preserves enc d
    rw [h.1]
    refine ih ?_ ?_
    · rw [← h.2.1]
      exact hn
    · rw [← h.2.2.1]
      exact hh
  | resetStep enc d hr ih =>
    intro hn hh
    exact (reset_fields opts enc d).1
  | closeStep enc hr ih =>
    intro hn hh
    rcases close_state_cases opts enc with hsame | hempty
    · rw [hsame] at hn hh ⊢
      exact ih hn hh
    · exact hempty
  | discardStep enc hr ih =>
    intro hn hh
    exact discard_stream_empty opts enc
  | discardResetStep enc d hr ih =>
    intro hn hh
    exact (reset_fields opts { enc with stream := [] } d).1

theorem c4_witness :
    Reachable testOpts testState0 ∧ testState0.numEncoded = 0 ∧
    testState0.hardErr = none ∧ testState0.stream = [] :=
  ⟨Reachable.setSchemaStep (NewEncoder testOpts) (some testDescr) Reachable.init,
    rfl, rfl,
    c4_empty_stream_invariant testOpts testState0
      (Reachable.setSchemaStep (NewEncoder testOpts) (some testDescr) Reachable.init)
      rfl rfl⟩

/-- C6: for every sample that passes the soft checks, the control bits
emitted right after the (first-sample-only) stream header are a single 0
bit when neither the schema nor the time unit changed, and the four bits
1, 1, timeUnitChange, schemaChange when at least one changed; in
particular the first two control bits are never the reserved end-of-stream
combination 1 0. -/
theorem c6_control_prefix_bits
    (opts : Options) (env : Env) (enc : EncoderState) (dp : Datapoint) (tu : Nat)
    (pb : List Nat) (sch : Schema) (m : Msg)
    (hcl : enc.closed = false) (hhe : enc.hardErr = none) (hs : enc.schema = some sch)
    (hun : env.unmarshal pb = Except.ok (m, false)) :
    (Encode opts env enc dp tu pb).1.stream.take
        (enc.stream.length +
          (if enc.numEncoded = 0 then streamHeaderBits opts else []).length +
          (if (!enc.hasEncodedSchema || (tu != enc.tsTimeUnit)) then
            [true, true, (tu != enc.tsTimeUnit), !enc.hasEncodedSchema]
          else [false]).length) =
      enc.stream ++ (if enc.numEncoded = 0 then streamHeaderBits opts else []) ++
        (if (!enc.hasEncodedSchema || (tu != enc.tsTimeUnit)) then
          [true, true, (tu != enc.tsTimeUnit), !enc.hasEncodedSchema]
        else [false]) ∧
    (if (!enc.hasEncodedSchema || (tu != enc.tsTimeUnit)) then
        [true, true, (tu != enc.tsTimeUnit), !enc.hasEncodedSchema]
      else [false]).take 2 ≠ [true, false] := by
  have hne : (if (!enc.hasEncodedSchema || (tu != enc.tsTimeUnit)) then
      [true, true, (tu != enc.tsTimeUnit), !enc.hasEncodedSchema]
    else [false]).take 2 ≠ [true, false] := by
    split <;> simp
  have hctrl := encodeSampleControl_stream opts env enc tu
  have key : ∀ extra : BitList, ∃ rest,
      (encodeSampleControl opts env enc tu).stream ++ extra =
        (enc.stream ++ (if enc.numEncoded = 0 then streamHeaderBits opts else []) ++
          (if (!enc.hasEncodedSchema || (tu != enc.tsTimeUnit)) then
            [true, true, (tu != enc.tsTimeUnit), !enc.hasEncodedSchema]
          else [false])) ++ rest := by
    intro extra
    rw [hctrl]
    by_cases hcond : (!enc.hasEncodedSchema || (tu != enc.tsTimeUnit)) = true
    · simp only [hcond, if_true, List.append_assoc, List.cons_append, List.nil_append]
      exact ⟨_, rfl⟩
    · rw [Bool.not_eq_true] at hcond
      simp only [hcond, Bool.false_eq_true, if_false, List.append_assoc]
      exact ⟨_, rfl⟩
  have main : ∃ rest,
      (Encode opts env enc dp tu pb).1.stream =
        (enc.stream ++ (if enc.numEncoded = 0 then streamHeaderBits opts else []) ++
          (if (!enc.hasEncodedSchema || (tu != enc.tsTimeUnit)) then
            [true, true, (tu != enc.tsTimeUnit), !enc.hasEncodedSchema]
          else [false])) ++ rest := by
    rw [encode_reduces hcl hhe hs hun]
    simp only [encodeSample]
    split
    case h_1 e heq =>
      obtain ⟨rest, hr⟩ := key []
      rw [List.append_nil] at hr
      exact ⟨rest, hr⟩
    case h_2 x tsBits tsRest2 heq =>
      obtain ⟨t, ht⟩ := encodeProto_append opts env
        { (encodeSampleControl opts env enc tu) with
            stream := (encodeSampleControl opts env enc tu).stream ++ tsBits,
            tsRest := tsRest2 } m
      simp only at ht
      split
      case h_1 enc4 e heq2 =>
        rw [heq2] at ht
        simp only at ht
        obtain ⟨rest, hr⟩ := key (tsBits ++ t)
        refine ⟨rest, ?_⟩
        simp only [ht, List.append_assoc]
        simp only [List.append_assoc] at hr
        exact hr
      case h_2 enc4 heq2 =>
        rw [heq2] at ht
        simp only at ht
        obtain ⟨rest, hr⟩ := key (tsBits ++ t)
        refine ⟨rest, ?_⟩
        simp only [ht, List.append_assoc]
        simp only [List.append_assoc] at hr
        exact hr
  obtain ⟨rest, hr⟩ := main
  refine ⟨?_, hne⟩
  rw [hr]
  have hlen : (enc.stream ++ (if enc.numEncoded = 0 then streamHeaderBits opts else []) ++
      (if (!enc.hasEncodedSchema || (tu != enc.tsTimeUnit)) then
        [true, true, (tu != enc.tsTimeUnit), !enc.hasEncodedSchema]
      else [false])).length =
      enc.stream.length +
        (if enc.numEncoded = 0 then streamHeaderBits opts else []).length +
        (if (!enc.hasEncodedSchema || (tu != enc.tsTimeUnit)) then
          [true, true, (tu != enc.tsTimeUnit), !enc.hasEncodedSchema]
        else [false]).length := by
    simp [List.length_append, Nat.add_assoc]
  rw [← hlen, List.take_left]

theorem c6_witness :
    testState0.closed = false ∧ testState0.hardErr = none ∧
    testState0.schema = some testSchema ∧
    testEnv.unmarshal [1, 2, 3] = Except.ok ([(1, FieldValue.vBool true)], false) ∧
    (Encode testOpts testEnv testState0 { timestamp := 5, value := 0 } 3 [1, 2, 3]).1.stream.take
        (testState0.stream.length +
          (if testState0.numEncoded = 0 then streamHeaderBits testOpts else []).length +
          (if (!testState0.hasEncodedSchema || ((3 : Nat) != testState0.tsTimeUnit)) then
            [true, true, ((3 : Nat) != testState0.tsTimeUnit), !testState0.hasEncodedSchema]
          else [false]).length) =
      testState0.stream ++
        (if testState0.numEncoded = 0 then streamHeaderBits testOpts else []) ++
        (if (!testState0.hasEncodedSchema || ((3 : Nat) != testState0.tsTimeUnit)) then
          [true, true, ((3 : Nat) != testState0.tsTimeUnit), !testState0.hasEncodedSchema]
        else [false]) :=
  ⟨rfl, rfl, rfl, rfl,
    (c6_control_prefix_bits testOpts testEnv testState0 { timestamp := 5, value := 0 } 3
      [1, 2, 3] testSchema [(1, FieldValue.vBool true)] rfl rfl rfl rfl).1⟩

lemma encode_uncompressed_step (opts : Options) (env : Env) (enc : EncoderState)
    (dp : Datapoint) (tu : Nat) (pb : List Nat) :
    (Encode opts env enc dp tu pb).1.uncompressedBytes =
      enc.uncompressedBytes +
        (if (Encode opts env enc dp tu pb).2 = none then pb.length else 0) := by
  have hout := encode_outcome opts env enc dp tu pb
  rcases hout.2 with hsoft | hok | hbad
  · rw [hsoft.2]
    simp [hsoft.1]
  · simp [hok.1, hok.2.2.2]
  · simp [hbad.1, hbad.2.2.2]

/-- C7 counterexample: after one accepted sample from a fresh encoder the
stream holds 34 bits, `Len` returns 34 and `Stats` reports
`compressedBytes = 34` — the source copies `Len()` into the counter with
no division — refuting `compressedBytes = Len()/8 rounded` (whether
rounded down or up). -/
theorem c7_counterexample :
    (Encode testOpts testEnv testState0 { timestamp := 5, value := 0 } 3 [1, 2, 3]).2 = none ∧
    Len (Encode testOpts testEnv testState0 { timestamp := 5, value := 0 } 3 [1, 2, 3]).1 = 34 ∧
    (Stats (Encode testOpts testEnv testState0
      { timestamp := 5, value := 0 } 3 [1, 2, 3]).1).compressedBytes = 34 ∧
    (Stats (Encode testOpts testEnv testState0
      { timestamp := 5, value := 0 } 3 [1, 2, 3]).1).compressedBytes ≠ 34 / 8 ∧
    (Stats (Encode testOpts testEnv testState0
      { timestamp := 5, value := 0 } 3 [1, 2, 3]).1).compressedBytes ≠ (34 + 7) / 8 := by
  refine ⟨?_, ?_, ?_, ?_, ?_⟩ <;> decide

/-- C7 (amended): over any run of `Encode` calls, `Stats` reports
`uncompressedBytes` as the starting value plus the total length of the
annotation byte slices of exactly the accepted (error-free) calls, and
`compressedBytes` equal to `Len()` — the current stream length — with no
division by eight. -/
theorem c7_stats_accounting (opts : Options) (env : Env) (enc : EncoderState)
    (l : List (Datapoint × Nat × List Nat)) :
    (Stats (encodeRun opts env enc l)).uncompressedBytes =
      enc.uncompressedBytes + acceptedBytes opts env enc l ∧
    (Stats (encodeRun opts env enc l)).compressedBytes = Len (encodeRun opts env enc l) := by
  refine ⟨?_, rfl⟩
  induction l generalizing enc with
  | nil => simp [encodeRun, acceptedBytes, Stats]
  | cons hd tl ih =>
    rcases hd with ⟨dp, tu, pb⟩
    simp only [encodeRun, acceptedBytes]
    rw [ih, encode_uncompressed_step]
    omega

/-- A schema holding a single residual-proto field (field number 7). -/
def protoDescr : SchemaDescr := { deployId := "p1", schema := [(7, FieldKind.kOther)] }

/-- Oracles for the residual-proto scenario: the annotation unmarshals to
a message with a changed non-default value at field 7, which marshals to
the single byte 171. -/
def protoEnv : Env :=
  { testEnv with
      unmarshal := fun _ => Except.ok ([(7, FieldValue.vOther 3)], false),
      marshal := fun _ => Except.ok [171] }

/-- A fresh encoder with the residual-proto schema installed. -/
def protoState0 : EncoderState := SetSchema (NewEncoder testOpts) (some protoDescr)

/-- C3 counterexample: an accepted first sample whose residual-proto path
takes the changed branch finishes at 47 bits, which is not a multiple of
eight.  Everything the changed branch emits from the varint onwards is a
whole number of bytes, so had the encoder padded to a byte-aligned
position before the varint, the final length would be divisible by eight;
the residual path emits the varint at bit position 31 with no padding.
(The `padToNextByte` call exists only in the bytes-field coder.) -/
theorem c3_counterexample :
    (Encode testOpts protoEnv protoState0 { timestamp := 5, value := 0 } 3 [9]).2 = none ∧
    (Encode testOpts protoEnv protoState0
      { timestamp := 5, value := 0 } 3 [9]).1.stream.length = 47 ∧
    (Encode testOpts protoEnv protoState0
      { timestamp := 5, value := 0 } 3 [9]).1.stream.length % 8 = 7 := by
  refine ⟨?_, ?_, ?_⟩ <;> decide

/-- C3 (amended): on the changed branch of the residual-proto path the
encoder emits the change bit, the fields-set-to-default bit (with its
bitset), the varint length and the marshaled bytes **directly at the
current bit position, with no padding to a byte boundary** — the
underlying stream writer splits the bytes across byte boundaries when the
position is unaligned. -/
theorem c3_no_padding_before_residual_marshal (env : Env) (enc : EncoderState)
    (m m1 lastEnc1 : Msg) (ch chd : List Nat) (bs : List Nat)
    (hpf : ¬enc.protoFields = [])
    (hdiff : protoDiffLoop env enc.protoFields m (enc.lastEncoded.getD []) [] [] =
      (m1, lastEnc1, ch, chd, none))
    (hch : ¬ch = [])
    (hm : env.marshal m1 = Except.ok bs) :
    encodeProtoValues env enc m =
      ({ enc with
          lastEncoded := some lastEnc1,
          stream := enc.stream ++ [opCodeChange] ++
            (if chd.length > 0 then
              opCodeFieldsSetToDefaultProtoMarshal :: encodeBitsetBits chd
            else [opCodeNoFieldsSetToDefaultProtoMarshal]) ++
            bytesBits (uvarintBytes bs.length) ++ bytesBits bs }, none) := by
  simp only [encodeProtoValues, if_neg hpf, hdiff, if_neg hch, hm]
  by_cases hd : chd.length > 0 <;>
    simp [hd, writeBit, writeBytesL, List.append_assoc]

theorem c3_amended_witness :
    (¬protoState0.protoFields = []) ∧
    protoDiffLoop protoEnv protoState0.protoFields [(7, FieldValue.vOther 3)]
        (protoState0.lastEncoded.getD []) [] [] =
      ([(7, FieldValue.vOther 3)], [(7, FieldValue.vOther 3)], [7], [], none) ∧
    protoEnv.marshal [(7, FieldValue.vOther 3)] = Except.ok [171] ∧
    encodeProtoValues protoEnv protoState0 [(7, FieldValue.vOther 3)] =
      ({ protoState0 with
          lastEncoded := some [(7, FieldValue.vOther 3)],
          stream := protoState0.stream ++ [opCodeChange] ++
            [opCodeNoFieldsSetToDefaultProtoMarshal] ++
            bytesBits (uvarintBytes 1) ++ bytesBits [171] }, none) :=
  ⟨by decide, by decide, rfl, by
    have h := c3_no_padding_before_residual_marshal protoEnv protoState0
      [(7, FieldValue.vOther 3)] [(7, FieldValue.vOther 3)] [(7, FieldValue.vOther 3)]
      [7] [] [171] (by decide) (by decide) (by decide) rfl
    simpa using h⟩

lemma moveToEnd_zero (l : List encoderBytesFieldDictState) (a : encoderBytesFieldDictState) :
    moveToEndOfBytesDict (a :: l) 0 = l ++ [a] := by
  induction l generalizing a with
  | nil => simp [moveToEndOfBytesDict]
  | cons b rest ih =>
    simp only [moveToEndOfBytesDict]
    rw [ih a]
    simp

lemma moveToEnd_succ (l : List encoderBytesFieldDictState) (a : encoderBytesFieldDictState)
    (j : Nat) : moveToEndOfBytesDict (a :: l) (j + 1) = a :: moveToEndOfBytesDict l j := by
  cases l <;> simp [moveToEndOfBytesDict]

lemma moveToEnd_take_drop (l : List encoderBytesFieldDictState) :
    ∀ (j : Nat) (hj : j < l.length),
      moveToEndOfBytesDict l j = l.take j ++ l.drop (j + 1) ++ [l.get ⟨j, hj⟩] := by
  induction l with
  | nil =>
    intro j hj
    simp at hj
  | cons a rest ih =>
    intro j hj
    cases j with
    | zero => simp [moveToEnd_zero]
    | succ j =>
      rw [moveToEnd_succ]
      have hj2 : j < rest.length := by simpa using hj
      rw [ih j hj2]
      simp

/-- After `padToNextByte` the byte length of the raw buffer, times eight,
is exactly the bit position: the recorded byte offset addresses the first
literal bit. -/
lemma streamByteLen_pad_aligned (s : BitList) :
    streamByteLen (padToNextByte s) * 8 = (padToNextByte s).length := by
  simp only [streamByteLen, padToNextByte, padLengthAt, List.length_append,
    List.length_replicate]
  omega

lemma bytesBits_length (bs : List Nat) : (bytesBits bs).length = 8 * bs.length := by
  induction bs with
  | nil => rfl
  | cons b rest ih =>
    simp [bytesBits, byteBits, natBitsMSB] at ih ⊢
    omega

/-- C5: the decision procedure of a bytes/string custom-field write.
Tail hit (the most recent dictionary entry has the same xxhash and its
referenced stream byte range equals the current bytes): a single 0 bit and
the dictionary untouched.  Otherwise a 1 bit; if the head-to-tail scan
finds an entry with matching hash and matching referenced bytes: a 0 bit,
the LRU index in `numBitsRequiredForNumUpToN capacity = ⌈log₂ capacity⌉`
bits, and that entry promoted to the tail.  Otherwise a 1 bit, the varint
byte length, 0-bit padding to the next byte boundary, the literal bytes,
and a dictionary append whose entry points at the byte offset where the
literal begins, evicting the head at capacity. -/
theorem c5_bytes_decision_procedure (opts : Options) (env : Env) :
    (∀ (f : customFieldState) (bits : BitList) (b : List Nat)
        (lastE : encoderBytesFieldDictState),
      f.bytesFieldDict.getLast? = some lastE →
      env.hash b = lastE.hash →
      bytesMatchEncodedDictionaryValue bits lastE b = Except.ok true →
      encodeBytesValue opts env f bits (FieldValue.vBytes b) =
        (f, bits ++ [false], none)) ∧
    (∀ (f : customFieldState) (bits : BitList) (b : List Nat) (j : Nat),
      bytesTailCheck bits f.bytesFieldDict (env.hash b) b = Except.ok false →
      findDictMatch (bits ++ [true]) (env.hash b) b f.bytesFieldDict 0 =
        Except.ok (some j) →
      encodeBytesValue opts env f bits (FieldValue.vBytes b) =
        ({ f with bytesFieldDict := moveToEndOfBytesDict f.bytesFieldDict j },
         bits ++ [true, false] ++
           natBitsMSB j (numBitsRequiredForNumUpToN opts.byteFieldDictionaryLRUSize),
         none)) ∧
    (∀ (dict : List encoderBytesFieldDictState) (j : Nat) (hj : j < dict.length),
      moveToEndOfBytesDict dict j =
        dict.take j ++ dict.drop (j + 1) ++ [dict.get ⟨j, hj⟩]) ∧
    (∀ (f : customFieldState) (bits : BitList) (b : List Nat)
        (newDict : List encoderBytesFieldDictState),
      bytesTailCheck bits f.bytesFieldDict (env.hash b) b = Except.ok false →
      findDictMatch (bits ++ [true]) (env.hash b) b f.bytesFieldDict 0 = Except.ok none →
      addToBytesDict opts.byteFieldDictionaryLRUSize f.bytesFieldDict
        { hash := env.hash b,
          startPos := streamByteLen (padToNextByte
            (bits ++ [true, true] ++ bytesBits (uvarintBytes b.length))),
          length := b.length } = some newDict →
      encodeBytesValue opts env f bits (FieldValue.vBytes b) =
        ({ f with bytesFieldDict := newDict },
         padToNextByte (bits ++ [true, true] ++ bytesBits (uvarintBytes b.length)) ++
           bytesBits b,
         none)) ∧
    (∀ s : BitList, streamByteLen (padToNextByte s) * 8 = (padToNextByte s).length) ∧
    (∀ (dict : List encoderBytesFieldDictState) (e : encoderBytesFieldDictState),
      dict.length < opts.byteFieldDictionaryLRUSize →
      addToBytesDict opts.byteFieldDictionaryLRUSize dict e = some (dict ++ [e])) ∧
    (∀ (d0 : encoderBytesFieldDictState) (dict : List encoderBytesFieldDictState)
        (e : encoderBytesFieldDictState),
      (d0 :: dict).length = opts.byteFieldDictionaryLRUSize →
      addToBytesDict opts.byteFieldDictionaryLRUSize (d0 :: dict) e =
        some (dict ++ [e])) := by
  refine ⟨?_, ?_, ?_, ?_, streamByteLen_pad_aligned, ?_, ?_⟩
  · intro f bits b lastE hlast hhash hmatch
    have htail : bytesTailCheck bits f.bytesFieldDict (env.hash b) b = Except.ok true := by
      simp [bytesTailCheck, hlast, hhash, hmatch]
    simp [encodeBytesValue, htail, writeBit, opCodeNoChange]
  · intro f bits b j htail hfind
    simp only [encodeBytesValue, htail]
    rw [show writeBit bits opCodeChange = bits ++ [true] from rfl, hfind]
    simp [writeBit, writeBits, opCodeChange, opCodeInterpretSubsequentBitsAsLRUIndex]
  · exact fun dict j hj => moveToEnd_take_drop dict j hj
  · intro f bits b newDict htail hfind hadd
    simp only [encodeBytesValue, htail]
    rw [show writeBit bits opCodeChange = bits ++ [true] from rfl, hfind]
    have hexpand : writeBytesL (writeBit (bits ++ [true])
        opCodeInterpretSubsequentBitsAsBytesLengthVarInt) (uvarintBytes b.length) =
        bits ++ [true, true] ++ bytesBits (uvarintBytes b.length) := by
      simp [writeBit, writeBytesL, opCodeInterpretSubsequentBitsAsBytesLengthVarInt]
    rw [hexpand, hadd]
    simp [writeBytesL]
  · intro dict e hlt
    simp [addToBytesDict, hlt]
  · intro d0 dict e hcap
    simp only [addToBytesDict]
    rw [if_neg (by omega)]

theorem c5_witness :
    ({ fieldNum := 2, fieldType := bytesField, coderState := 0,
       bytesFieldDict := [{ hash := testEnv.hash [65], startPos := 0, length := 1 }] } :
        customFieldState).bytesFieldDict.getLast? =
      some { hash := testEnv.hash [65], startPos := 0, length := 1 } ∧
    testEnv.hash [65] = ({ hash := testEnv.hash [65], startPos := 0, length := 1 } :
      encoderBytesFieldDictState).hash ∧
    bytesMatchEncodedDictionaryValue (byteBits 65)
      { hash := testEnv.hash [65], startPos := 0, length := 1 } [65] = Except.ok true ∧
    encodeBytesValue testOpts testEnv
        { fieldNum := 2, fieldType := bytesField, coderState := 0,
          bytesFieldDict := [{ hash := testEnv.hash [65], startPos := 0, length := 1 }] }
        (byteBits 65) (FieldValue.vBytes [65]) =
      ({ fieldNum := 2, fieldType := bytesField, coderState := 0,
         bytesFieldDict := [{ hash := testEnv.hash [65], startPos := 0, length := 1 }] },
       byteBits 65 ++ [false], none) :=
  ⟨rfl, rfl, rfl,
    (c5_bytes_decision_procedure testOpts testEnv).1
      { fieldNum := 2, fieldType := bytesField, coderState := 0,
        bytesFieldDict := [{ hash := testEnv.hash [65], startPos := 0, length := 1 }] }
      (byteBits 65) [65]
      { hash := testEnv.hash [65], startPos := 0, length := 1 }
      rfl rfl rfl⟩

end M3Proto
